import Mathlib

/-!
Verification of the ControlFlow `Flow` session component
(`src/controlflow/flows/flow.py`) and the prompt-template layer
(`src/controlflow/orchestration/prompt_templates.py`).

The repository source shown contains only these two files; the collaborators
they call (the `Graph` task graph, the `History` event log, the ambient `ctx`
context stack, and the `Task`/`Agent` models) are modelled from the spec, as
marked on each definition.  Python's mutable objects are embedded as pure
values with explicit state passing; `uuid4` thread identifiers become `Nat`
identifiers whose freshness is stated as a hypothesis where it matters.
-/

namespace ControlFlow

/-- Modelled from the spec: an Event is an immutable record tagged with the
originating thread, optional agent identifier(s) and task identifier(s),
ordered by a monotonic identifier usable for before/after pagination.
(`controlflow.events.base.Event` is not part of the shown source.) -/
structure Event where
  id : Nat
  type : String
  agent_ids : List Nat
  task_ids : List Nat
deriving DecidableEq, Repr

/-- The keyword arguments of a `History.get_events` call, as built by
`Flow.get_events` in `flow.py`. -/
structure EventQuery where
  thread_id : Nat
  agent_ids : List Nat
  task_ids : List Nat
  before_id : Option Nat
  after_id : Option Nat
  limit : Option Nat
  types : Option (List String)
deriving DecidableEq, Repr

/-- Modelled from the spec: the Event Log Interface is an append-only,
thread-scoped store of immutable events, queried by filters.  We embed it as
an association list from thread identifier to the ordered event sequence of
that thread.  (`controlflow.events.history.History` is not part of the shown
source.) -/
structure History where
  threads : List (Nat × List Event)
deriving DecidableEq, Repr

/-- The events stored for one thread, in append order. -/
def History.threadEvents (h : History) (tid : Nat) : List Event :=
  match h.threads.find? (fun p => p.1 == tid) with
  | some p => p.2
  | none => []

/-- Append `es` to the entry for `tid`, creating the entry if absent. -/
def appendThread : List (Nat × List Event) → Nat → List Event → List (Nat × List Event)
  | [], tid, es => [(tid, es)]
  | (t, l) :: rest, tid, es =>
      if t == tid then (t, l ++ es) :: rest else (t, l) :: appendThread rest tid es

/-- Modelled from the spec: `append(thread_id, events)` appends the ordered
sequence of events to the log of that thread, preserving submission order. -/
def History.add_events (h : History) (tid : Nat) (events : List Event) : History :=
  ⟨appendThread h.threads tid events⟩

/-- Modelled from the spec: `query(thread_id, agent_ids?, task_ids?,
before_id?, after_id?, limit?, types?)` returns the thread's ordered events
restricted by the given filters; an empty identifier list means no filter,
`before_id`/`after_id` are exclusive bounds, and `limit` keeps the most
recent events. -/
def History.get_events (h : History) (q : EventQuery) : List Event :=
  let evs := h.threadEvents q.thread_id
  let evs := if q.agent_ids.isEmpty then evs
             else evs.filter (fun e => e.agent_ids.any (fun a => q.agent_ids.contains a))
  let evs := if q.task_ids.isEmpty then evs
             else evs.filter (fun e => e.task_ids.any (fun t => q.task_ids.contains t))
  let evs := match q.types with
             | none => evs
             | some ts => evs.filter (fun e => ts.contains e.type)
  let evs := match q.before_id with
             | none => evs
             | some b => evs.filter (fun e => e.id < b)
  let evs := match q.after_id with
             | none => evs
             | some a => evs.filter (fun e => a < e.id)
  match q.limit with
  | none => evs
  | some n => evs.drop (evs.length - n)

/-- Modelled from the spec: an agent has an identifier (only the identifier
is relevant to the shown source, which maps agents to `agent.id`). -/
structure Agent where
  id : Nat
deriving DecidableEq, Repr

/-- Modelled from the spec: task lifecycle states. -/
inductive TaskStatus where
  | pending
  | running
  | complete
  | failed
  | skipped
deriving DecidableEq, Repr

/-- Modelled from the spec: a Task is a unit of work with a unique
identifier, a lifecycle status, and upstream dependency references by
identifier.  (`controlflow.tasks.task.Task` is not part of the shown
source.) -/
structure Task where
  id : Nat
  deps : List Nat
  status : TaskStatus
deriving DecidableEq, Repr

/-- Modelled from the spec: `task.is_complete()` holds when the task's
status is terminal-complete. -/
def Task.is_complete (t : Task) : Bool :=
  t.status == TaskStatus.complete

/-- Structural graph errors from the spec's error taxonomy. -/
inductive GraphError where
  | cycleError
  | danglingDependencyError
deriving DecidableEq, Repr

/-- Modelled from the spec: the Task Graph is the set of tasks registered to
a Flow plus their dependency edges; we keep the tasks in insertion order,
which also serves as the deterministic tie-break of the topological sort.
(`controlflow.flows.graph.Graph` is not part of the shown source.) -/
structure Graph where
  tasks : List Task
deriving DecidableEq, Repr

/-- The identifiers of the registered tasks, in insertion order. -/
def Graph.taskIds (g : Graph) : List Nat :=
  g.tasks.map (fun t => t.id)

/-- Modelled from the spec: `add_task(task)` registers a task and its
dependency edges; it fails with `DanglingDependencyError` when a dependency
references an identifier not present in the graph (the spec's
reject-don't-auto-register option), and with `CycleError` when the insertion
would introduce a cycle (a task depending on itself, or a duplicate
identifier, which are the only ways a single insertion over already-present
dependencies can close a cycle). -/
def Graph.add_task (g : Graph) (t : Task) : Except GraphError Graph :=
  if t.deps.any (fun d => !(g.taskIds.contains d)) then
    Except.error GraphError.danglingDependencyError
  else if t.deps.contains t.id || g.taskIds.contains t.id then
    Except.error GraphError.cycleError
  else
    Except.ok ⟨g.tasks ++ [t]⟩

/-- One selection pass of Kahn's algorithm with insertion-order tie-break:
emit the first remaining task all of whose dependencies are already emitted.
`fuel` bounds the recursion by the number of tasks. -/
def topoGo : List Task → List Nat → Nat → List Task
  | _, _, 0 => []
  | remaining, emitted, fuel + 1 =>
      match remaining.find? (fun t => t.deps.all (fun d => emitted.contains d)) with
      | none => []
      | some t => t :: topoGo (remaining.erase t) (emitted ++ [t.id]) fuel

/-- Modelled from the spec: `topological_sort()` returns the tasks ordered so
that every task appears after all of its dependencies, deterministically with
insertion-order tie-break, without mutating the graph. -/
def Graph.topological_sort (g : Graph) : List Task :=
  topoGo g.tasks [] g.tasks.length

/-- The invariant maintained by `Graph.add_task`: every task's dependencies
are identifiers of strictly earlier tasks (relative to the already-seen
identifiers `seen`), and every identifier is fresh. -/
def wfAux : List Nat → List Task → Bool
  | _, [] => true
  | seen, t :: rest =>
      t.deps.all (fun d => seen.contains d) && !(seen.contains t.id) &&
        wfAux (seen ++ [t.id]) rest

/-- A well-formed graph: reachable from the empty graph by successful
`add_task` calls. -/
def Graph.wf (g : Graph) : Bool :=
  wfAux [] g.tasks

/-- The dependency identifiers of the task with identifier `i`. -/
def Graph.depsOf (g : Graph) (i : Nat) : List Nat :=
  match g.tasks.find? (fun t => t.id == i) with
  | some t => t.deps
  | none => []

/-- The identifiers of the tasks that directly depend on identifier `i`. -/
def Graph.dependentsOf (g : Graph) (i : Nat) : List Nat :=
  (g.tasks.filter (fun t => t.deps.contains i)).map (fun t => t.id)

/-- One expansion step of the upstream closure over dependency edges. -/
def upStep (g : Graph) (ids : List Nat) : List Nat :=
  ids ++ ((ids.flatMap g.depsOf).filter (fun d => !(ids.contains d)))

/-- Iterated upstream expansion (the graph size bounds the closure depth). -/
def upClosureIds (g : Graph) : Nat → List Nat → List Nat
  | 0, ids => ids
  | n + 1, ids => upClosureIds g n (upStep g ids)

/-- Modelled from the spec: `upstream_tasks(tasks)` returns the tasks
transitively required by any task in the input set, excluding the input set
itself. -/
def Graph.upstream_tasks (g : Graph) (S : List Task) : List Task :=
  let ids := upClosureIds g g.tasks.length (S.map (fun t => t.id))
  (g.tasks.filter (fun t => ids.contains t.id)).filter
    (fun t => !((S.map (fun u => u.id)).contains t.id))

/-- One expansion step of the downstream closure over reverse edges. -/
def downStep (g : Graph) (ids : List Nat) : List Nat :=
  ids ++ ((ids.flatMap g.dependentsOf).filter (fun d => !(ids.contains d)))

/-- Iterated downstream expansion. -/
def downClosureIds (g : Graph) : Nat → List Nat → List Nat
  | 0, ids => ids
  | n + 1, ids => downClosureIds g n (downStep g ids)

/-- Modelled from the spec: `downstream_tasks(tasks)` returns the transitive
closure of tasks depending on any task in the input set, excluding the input
set itself. -/
def Graph.downstream_tasks (g : Graph) (S : List Task) : List Task :=
  let ids := downClosureIds g g.tasks.length (S.map (fun t => t.id))
  (g.tasks.filter (fun t => ids.contains t.id)).filter
    (fun t => !((S.map (fun u => u.id)).contains t.id))

/-- The `Flow` model of `flow.py`: a thread identity partitioning the event
log, a task graph, and descriptive fields.  The `History` handle is the
(shared, global-by-default) event log and is passed explicitly; execution
resources (tools, default agent) play no role in the verified claims. -/
structure Flow where
  thread_id : Nat
  name : Option String := none
  description : Option String := none
  prompt : Option String := none
  graph : Graph := ⟨[]⟩
deriving DecidableEq, Repr

/-- `Flow.add_task` delegates to `Graph.add_task` (`self.graph.add_task(task)`). -/
def Flow.add_task (f : Flow) (t : Task) : Except GraphError Flow :=
  match f.graph.add_task t with
  | Except.ok g => Except.ok { f with graph := g }
  | Except.error e => Except.error e

/-- The `Flow.tasks` property: `self.graph.topological_sort()`, recomputed on
each access. -/
def Flow.tasks (f : Flow) : List Task :=
  f.graph.topological_sort

/-- The keyword arguments `Flow.get_events` passes to
`self.history.get_events`: its own `thread_id`, agents and tasks translated
to identifier lists (`[agent.id for agent in agents or []]`, `[task.id for
task in tasks or []]`), and the remaining filters forwarded unchanged. -/
def Flow.events_query (f : Flow) (agents : Option (List Agent))
    (tasks : Option (List Task)) (before_id after_id limit : Option Nat)
    (types : Option (List String)) : EventQuery :=
  ⟨f.thread_id, (agents.getD []).map (fun a => a.id),
    (tasks.getD []).map (fun t => t.id), before_id, after_id, limit, types⟩

/-- `Flow.get_events`: delegates to `History.get_events` with the query built
from this flow's thread identity. -/
def Flow.get_events (f : Flow) (h : History) (agents : Option (List Agent))
    (tasks : Option (List Task)) (before_id after_id limit : Option Nat)
    (types : Option (List String)) : List Event :=
  h.get_events (f.events_query agents tasks before_id after_id limit types)

/-- `Flow.add_events`: `self.history.add_events(thread_id=self.thread_id,
events=events)`. -/
def Flow.add_events (f : Flow) (h : History) (events : List Event) : History :=
  h.add_events f.thread_id events

/-- Modelled from the spec: the ambient context (`ctx` in
`controlflow.utilities.context`, not part of the shown source) keeps a stack
of scope values for the `flow` key; entering a `Flow` session pushes the flow
and exiting pops it.  We embed the stack of active flows directly. -/
def get_flow (s : List Flow) : Option Flow :=
  s.head?

/-- A session-scope action on the ambient flow stack: `enter` is
`Flow.__enter__` (push via `create_context`), `exitScope` is `Flow.__exit__`
(pop the matching context manager from `_cm_stack` and exit it, restoring the
previous ambient flow on any exit path, normal or exceptional). -/
inductive SessionOp where
  | enter (f : Flow)
  | exitScope
deriving DecidableEq, Repr

/-- The effect of one session action on the ambient flow stack. -/
def sessionStep (s : List Flow) : SessionOp → List Flow
  | SessionOp.enter f => f :: s
  | SessionOp.exitScope => s.tail

/-- Run a sequence of session actions over the ambient flow stack. -/
def runSession (ops : List SessionOp) (s : List Flow) : List Flow :=
  ops.foldl sessionStep s

/-- `balancedFrom d ops` holds when `ops` is a well-bracketed body for a
scope currently nested `d` levels deep: every exit matches an earlier enter
and the sequence ends back at depth zero. -/
def balancedFrom : Nat → List SessionOp → Bool
  | 0, [] => true
  | _ + 1, [] => false
  | d, SessionOp.enter _ :: rest => balancedFrom (d + 1) rest
  | 0, SessionOp.exitScope :: _ => false
  | d + 1, SessionOp.exitScope :: rest => balancedFrom d rest

/-- `get_flow_events(limit=None)` from `flow.py`: defaults the limit to 50,
then returns the active flow's events, or `[]` when no flow is active. -/
def get_flow_events (s : List Flow) (h : History) (limit : Option Nat) : List Event :=
  let lim : Option Nat :=
    match limit with
    | none => some 50
    | some n => some n
  match get_flow s with
  | some flow => flow.get_events h none none none none lim none
  | none => []

/-- The parent-task seeding loop of `Flow.__init__`: `for task in
parent.tasks: if task.is_complete(): self.add_task(task)` (a raised graph
error propagates out of the constructor). -/
def seedTasks (f : Flow) : List Task → Except GraphError Flow
  | [] => Except.ok f
  | t :: rest =>
      if t.is_complete then
        match f.add_task t with
        | Except.ok f' => seedTasks f' rest
        | Except.error e => Except.error e
      else seedTasks f rest

/-- `Flow.__init__(copy_parent=True, ...)`: after constructing the flow with
a fresh `thread_id` and empty graph, if a parent flow is ambiently active and
`copy_parent` is set, seed the new thread's event log with
`parent.get_events()` (no filters) and register every complete parent task
via the seeding loop. -/
def Flow.init (copy_parent : Bool) (thread_id : Nat) (stack : List Flow)
    (h : History) : Except GraphError (Flow × History) :=
  let f : Flow := { thread_id := thread_id }
  match get_flow stack with
  | some parent =>
      if copy_parent then
        let h' := f.add_events h (parent.get_events h none none none none none none)
        match seedTasks f parent.tasks with
        | Except.ok f' => Except.ok (f', h')
        | Except.error e => Except.error e
      else Except.ok (f, h)
  | none => Except.ok (f, h)

/-- A parent graph's task list is complete-closed when every dependency of a
complete task is itself complete (the orchestrator only completes a task
after its dependencies are terminal-complete). -/
def completeClosed (L : List Task) : Prop :=
  ∀ t ∈ L, t.is_complete = true → ∀ d ∈ t.deps, ∀ u ∈ L, u.id = d →
    u.is_complete = true

instance (L : List Task) : Decidable (completeClosed L) := by
  unfold completeClosed
  infer_instance

/-- Python truthiness of an `Optional[str]` field: `None` and the empty
string are falsy (the validator tests `not self.template`). -/
def pyFalsy : Option String → Bool
  | none => true
  | some s => s.isEmpty

/-- `Template._validate` from `prompt_templates.py`: after construction,
raise `ValueError` if neither `template` nor `template_path` is truthy;
otherwise the instance is returned unchanged. -/
def validateTemplate (template template_path : Option String) :
    Except String (Option String × Option String) :=
  if pyFalsy template && pyFalsy template_path then
    Except.error "Template or template_path must be provided."
  else
    Except.ok (template, template_path)

/-- Default `template_path` of `AgentTemplate`. -/
def agentTemplatePath : String := "agent.md.jinja"

/-- Default `template_path` of `TaskTemplate`. -/
def taskTemplatePath : String := "task.md.jinja"

/-- Default `template_path` of `FlowTemplate`. -/
def flowTemplatePath : String := "flow.md.jinja"

/-- Default `template_path` of `TeamTemplate`. -/
def teamTemplatePath : String := "team.md.jinja"

/-- Default `template_path` of `InstructionsTemplate`. -/
def instructionsTemplatePath : String := "instructions.md.jinja"

/-- The body of `Template.render`: `if not self.should_render(): return ""`,
otherwise the jinja-rendered text (jinja is an external collaborator; the
rendered body is passed in as `rendered`). -/
def templateRender (should_render : Bool) (rendered : String) : String :=
  if !should_render then "" else rendered

/-- `InstructionsTemplate`: default path and an `instructions` list
defaulting to empty. -/
structure InstructionsTemplate where
  template : Option String := none
  template_path : Option String := some instructionsTemplatePath
  instructions : List String := []
deriving DecidableEq, Repr

/-- `InstructionsTemplate.should_render`: `bool(self.instructions)`. -/
def InstructionsTemplate.should_render (t : InstructionsTemplate) : Bool :=
  !t.instructions.isEmpty

/-- `InstructionsTemplate.render`: the inherited `Template.render` with this
template's `should_render`. -/
def InstructionsTemplate.render (t : InstructionsTemplate) (rendered : String) : String :=
  templateRender t.should_render rendered

/-- The execution-context fields used by the templates: `context.tasks`. -/
structure AgentContext where
  tasks : List Task
deriving DecidableEq, Repr

/-- `FlowTemplate`: default path plus the flow and context it renders. -/
structure FlowTemplate where
  template : Option String := none
  template_path : Option String := some flowTemplatePath
  flow : Flow
  context : AgentContext
deriving DecidableEq, Repr

/-- The `upstream_tasks` and `downstream_tasks` keyword arguments that
`FlowTemplate.render` passes to the base `render`: the graph closures of
`context.tasks` with `set.difference(self.context.tasks)` applied (sets are
embedded as lists; the difference keeps exactly the elements not in the
subtracted collection). -/
def FlowTemplate.render_args (ft : FlowTemplate) : List Task × List Task :=
  let upstream_tasks := ft.flow.graph.upstream_tasks ft.context.tasks
  let downstream_tasks := ft.flow.graph.downstream_tasks ft.context.tasks
  (upstream_tasks.filter (fun t => !(ft.context.tasks.contains t)),
   downstream_tasks.filter (fun t => !(ft.context.tasks.contains t)))

/-- Every dependency of the `j`-th task resolves to a strictly earlier task:
the spec's topological-correctness reading of a task sequence. -/
def topoOrdered (l : List Task) : Prop :=
  ∀ (j : Nat) (hj : j < l.length), ∀ d ∈ (l.get ⟨j, hj⟩).deps,
    ∃ (i : Nat) (hi : i < l.length), i < j ∧ (l.get ⟨i, hi⟩).id = d

/-! ## Concrete values used by the witness theorems -/

/-- A completed task with no dependencies. -/
def exTaskA : Task := ⟨1, [], TaskStatus.complete⟩

/-- A pending task depending on `exTaskA`. -/
def exTaskB : Task := ⟨2, [1], TaskStatus.pending⟩

/-- A completed task depending on `exTaskA`. -/
def exTaskC : Task := ⟨3, [1], TaskStatus.complete⟩

/-- A parent flow holding the three example tasks. -/
def exParent : Flow := { thread_id := 0, graph := ⟨[exTaskA, exTaskB, exTaskC]⟩ }

/-- An event log with two events on the parent's thread. -/
def exHistory : History := ⟨[(0, [⟨10, "message", [], []⟩, ⟨11, "message", [], []⟩])]⟩

/-- A flow on its own thread, distinct from `exParent`'s. -/
def exChild : Flow := { thread_id := 1 }

/-- A second flow used for nested session entries. -/
def exFlowB : Flow := { thread_id := 2 }

/-- A flow with an empty graph, used to exercise `add_task`. -/
def exEmptyFlow : Flow := { thread_id := 3 }

/-- An event appended by the child flow after construction. -/
def exEvent : Event := ⟨12, "message", [], []⟩

/-! ## Event-log lemmas -/

theorem threadEvents_appendThread_self (l : List (Nat × List Event)) (tid : Nat)
    (es : List Event) :
    History.threadEvents ⟨appendThread l tid es⟩ tid =
      History.threadEvents ⟨l⟩ tid ++ es := by
  induction l with
  | nil => simp [appendThread, History.threadEvents]
  | cons p rest ih =>
      obtain ⟨t, evs⟩ := p
      by_cases htid : t = tid
      · subst htid
        simp [appendThread, History.threadEvents]
      · simp only [appendThread, beq_iff_eq, htid, if_false]
        simpa [History.threadEvents, List.find?_cons, beq_iff_eq, htid] using ih

theorem threadEvents_appendThread_other (l : List (Nat × List Event)) (tid tid' : Nat)
    (es : List Event) (hne : tid' ≠ tid) :
    History.threadEvents ⟨appendThread l tid es⟩ tid' =
      History.threadEvents ⟨l⟩ tid' := by
  induction l with
  | nil => simp [appendThread, History.threadEvents, List.find?_cons, hne, Ne.symm hne]
  | cons p rest ih =>
      obtain ⟨t, evs⟩ := p
      by_cases htid : t = tid
      · subst htid
        simp [appendThread, History.threadEvents, List.find?_cons, beq_iff_eq,
          Ne.symm hne]
      · simp only [appendThread, beq_iff_eq, htid, if_false]
        by_cases ht' : t = tid'
        · subst ht'
          simp [History.threadEvents, List.find?_cons]
        · simpa [History.threadEvents, List.find?_cons, beq_iff_eq, ht'] using ih

theorem History.add_events_threadEvents (h : History) (tid : Nat) (es : List Event) :
    (h.add_events tid es).threadEvents tid = h.threadEvents tid ++ es :=
  threadEvents_appendThread_self h.threads tid es

theorem History.add_events_threadEvents_other (h : History) (tid tid' : Nat)
    (es : List Event) (hne : tid' ≠ tid) :
    (h.add_events tid es).threadEvents tid' = h.threadEvents tid' :=
  threadEvents_appendThread_other h.threads tid tid' es hne

theorem History.get_events_congr (h₁ h₂ : History) (q : EventQuery)
    (hth : h₁.threadEvents q.thread_id = h₂.threadEvents q.thread_id) :
    h₁.get_events q = h₂.get_events q := by
  unfold History.get_events
  rw [hth]

theorem History.get_events_nofilter (h : History) (tid : Nat) :
    h.get_events ⟨tid, [], [], none, none, none, none⟩ = h.threadEvents tid := rfl

/-! ## Session-scope lemmas -/

theorem runSession_cons (op : SessionOp) (ops : List SessionOp) (s : List Flow) :
    runSession (op :: ops) s = runSession ops (sessionStep s op) := rfl

theorem runSession_balanced (ops : List SessionOp) :
    ∀ (d : Nat) (pre s : List Flow), balancedFrom d ops = true → pre.length = d →
      runSession ops (pre ++ s) = s := by
  induction ops with
  | nil =>
      intro d pre s hb hlen
      cases d with
      | zero =>
          have : pre = [] := List.length_eq_zero.mp hlen
          subst this
          rfl
      | succ d' => simp [balancedFrom] at hb
  | cons op rest ih =>
      intro d pre s hb hlen
      cases op with
      | enter f =>
          have hb' : balancedFrom (d + 1) rest = true := by
            simpa [balancedFrom] using hb
          have := ih (d + 1) (f :: pre) s hb' (by simp [hlen])
          simpa [runSession_cons, sessionStep] using this
      | exitScope =>
          cases d with
          | zero => simp [balancedFrom] at hb
          | succ d' =>
              have hb' : balancedFrom d' rest = true := by
                simpa [balancedFrom] using hb
              cases pre with
              | nil => simp at hlen
              | cons x pre' =>
                  have := ih d' pre' s hb' (by simpa using hlen)
                  simpa [runSession_cons, sessionStep] using this

theorem balancedFrom_append_exit (ops : List SessionOp) :
    ∀ d : Nat, balancedFrom d ops = true →
      balancedFrom (d + 1) (ops ++ [SessionOp.exitScope]) = true := by
  induction ops with
  | nil =>
      intro d hb
      cases d with
      | zero => rfl
      | succ d' => simp [balancedFrom] at hb
  | cons op rest ih =>
      intro d hb
      cases op with
      | enter f =>
          have hb' : balancedFrom (d + 1) rest = true := by
            simpa [balancedFrom] using hb
          simpa [balancedFrom] using ih (d + 1) hb'
      | exitScope =>
          cases d with
          | zero => simp [balancedFrom] at hb
          | succ d' =>
              have hb' : balancedFrom d' rest = true := by
                simpa [balancedFrom] using hb
              simpa [balancedFrom] using ih d' hb'

/-! ## Task-graph lemmas -/

theorem wfAux_cons (seen : List Nat) (t : Task) (rest : List Task) :
    wfAux seen (t :: rest) = true ↔
      (∀ d ∈ t.deps, d ∈ seen) ∧ t.id ∉ seen ∧
        wfAux (seen ++ [t.id]) rest = true := by
  simp [wfAux, List.all_eq_true, and_assoc]

theorem wfAux_append (l : List Task) :
    ∀ (seen : List Nat) (t : Task), wfAux seen l = true →
      (∀ d ∈ t.deps, d ∈ seen ∨ d ∈ l.map (fun u => u.id)) →
      t.id ∉ seen → t.id ∉ l.map (fun u => u.id) →
      wfAux seen (l ++ [t]) = true := by
  induction l with
  | nil =>
      intro seen t _ hdeps hid _
      rw [List.nil_append, wfAux_cons]
      refine ⟨fun d hd => ?_, hid, rfl⟩
      rcases hdeps d hd with h | h
      · exact h
      · simp at h
  | cons u rest ih =>
      intro seen t hwf hdeps hid hidl
      rw [List.cons_append, wfAux_cons]
      rw [wfAux_cons] at hwf
      obtain ⟨hu, huid, hrest⟩ := hwf
      simp only [List.map_cons, List.mem_cons, not_or] at hidl
      obtain ⟨hne, hidl'⟩ := hidl
      refine ⟨hu, huid, ?_⟩
      apply ih (seen ++ [u.id]) t hrest
      · intro d hd
        rcases hdeps d hd with h | h
        · exact Or.inl (List.mem_append_left _ h)
        · simp only [List.map_cons, List.mem_cons] at h
          rcases h with h' | h'
          · exact Or.inl (by simp [h'])
          · exact Or.inr h'
      · intro hmem
        rcases List.mem_append.mp hmem with h | h
        · exact hid h
        · exact hne (by simpa using h)
      · exact hidl'

theorem topoGo_of_wfAux (l : List Task) :
    ∀ (seen : List Nat) (fuel : Nat), wfAux seen l = true → l.length ≤ fuel →
      topoGo l seen fuel = l := by
  induction l with
  | nil =>
      intro seen fuel _ _
      cases fuel with
      | zero => rfl
      | succ n => simp [topoGo]
  | cons t rest ih =>
      intro seen fuel hwf hlen
      rw [wfAux_cons] at hwf
      obtain ⟨hdeps, hid, hrest⟩ := hwf
      cases fuel with
      | zero => simp at hlen
      | succ n =>
          have hfind : (t :: rest).find?
              (fun u => u.deps.all (fun d => seen.contains d)) = some t := by
            apply List.find?_cons_of_pos
            simp [List.all_eq_true]
            exact hdeps
          have herase : (t :: rest).erase t = rest := List.erase_cons_head t rest
          simp only [topoGo, hfind, herase]
          rw [ih (seen ++ [t.id]) n hrest (Nat.le_of_succ_le_succ hlen)]

theorem topological_sort_eq (g : Graph) (hwf : g.wf = true) :
    g.topological_sort = g.tasks :=
  topoGo_of_wfAux g.tasks [] g.tasks.length hwf (Nat.le_refl _)

theorem wfAux_topoOrdered (l : List Task) :
    ∀ seen : List Nat, wfAux seen l = true →
      ∀ (j : Nat) (hj : j < l.length), ∀ d ∈ (l.get ⟨j, hj⟩).deps,
        d ∈ seen ∨ ∃ (i : Nat) (hi : i < l.length), i < j ∧
          (l.get ⟨i, hi⟩).id = d := by
  induction l with
  | nil =>
      intro seen _ j hj
      simp at hj
  | cons t rest ih =>
      intro seen hwf j hj d hd
      rw [wfAux_cons] at hwf
      obtain ⟨hdeps, _, hrest⟩ := hwf
      cases j with
      | zero => exact Or.inl (hdeps d hd)
      | succ j' =>
          have hj' : j' < rest.length := Nat.lt_of_succ_lt_succ hj
          have hget : (t :: rest).get ⟨j' + 1, hj⟩ = rest.get ⟨j', hj'⟩ := rfl
          rw [hget] at hd
          rcases ih (seen ++ [t.id]) hrest j' hj' d hd with h | h
          · rcases List.mem_append.mp h with h' | h'
            · exact Or.inl h'
            · refine Or.inr ⟨0, Nat.succ_pos _, Nat.succ_pos _, ?_⟩
              simpa using (List.mem_singleton.mp h').symm
          · obtain ⟨i, hi, hij, hidv⟩ := h
            refine Or.inr ⟨i + 1, Nat.succ_lt_succ hi, Nat.succ_lt_succ hij, ?_⟩
            exact hidv

theorem wf_topoOrdered (g : Graph) (hwf : g.wf = true) : topoOrdered g.tasks := by
  intro j hj d hd
  rcases wfAux_topoOrdered g.tasks [] hwf j hj d hd with h | h
  · simp at h
  · exact h

theorem add_task_ok (g : Graph) (t : Task) (g' : Graph)
    (h : g.add_task t = Except.ok g') :
    g'.tasks = g.tasks ++ [t] ∧ (∀ d ∈ t.deps, d ∈ g.taskIds) ∧
      t.id ∉ g.taskIds ∧ t.id ∉ t.deps := by
  unfold Graph.add_task at h
  by_cases h1 : (t.deps.any fun d => !g.taskIds.contains d) = true
  · rw [if_pos h1] at h
    cases h
  · rw [if_neg h1] at h
    by_cases h2 : (t.deps.contains t.id || g.taskIds.contains t.id) = true
    · rw [if_pos h2] at h
      cases h
    · rw [if_neg h2] at h
      simp only [List.any_eq_true, not_exists, not_and, Bool.not_eq_true,
        Bool.not_eq_true'] at h1
      simp only [Bool.or_eq_true, not_or] at h2
      obtain ⟨h2a, h2b⟩ := h2
      cases h
      refine ⟨rfl, ?_, ?_, ?_⟩
      · intro d hd
        have := h1 d hd
        simpa using this
      · simpa using h2b
      · simpa using h2a

theorem wf_add_task (g : Graph) (t : Task) (g' : Graph) (hwf : g.wf = true)
    (h : g.add_task t = Except.ok g') : g'.wf = true := by
  obtain ⟨htasks, hdeps, hid, -⟩ := add_task_ok g t g' h
  unfold Graph.wf
  rw [htasks]
  exact wfAux_append g.tasks [] t hwf
    (fun d hd => Or.inr (hdeps d hd)) (by simp) hid

/-! ## Parent-seeding lemmas -/

theorem seedTasks_ok (l : List Task) :
    ∀ (p : List Task) (f : Flow),
      completeClosed (p ++ l) →
      wfAux (p.map (fun u => u.id)) l = true →
      f.graph.tasks = p.filter (fun t => t.is_complete) →
      ∃ f', seedTasks f l = Except.ok f' ∧
        f'.graph.tasks = (p ++ l).filter (fun t => t.is_complete) := by
  induction l with
  | nil =>
      intro p f _ _ hf
      exact ⟨f, rfl, by simpa using hf⟩
  | cons t rest ih =>
      intro p f hcc hwf hf
      rw [wfAux_cons] at hwf
      obtain ⟨hdeps, hid, hrest⟩ := hwf
      have hassoc : (p ++ [t]) ++ rest = p ++ t :: rest := by simp
      have hidg : t.id ∉ f.graph.taskIds := by
        intro hmem
        apply hid
        have : t.id ∈ (p.filter (fun u => u.is_complete)).map (fun u => u.id) := by
          simpa [Graph.taskIds, hf] using hmem
        obtain ⟨u, hu, hui⟩ := List.mem_map.mp this
        exact List.mem_map.mpr ⟨u, List.mem_of_mem_filter hu, hui⟩
      have hniddeps : t.id ∉ t.deps := fun hmem => hid (hdeps t.id hmem)
      by_cases ht : t.is_complete = true
      · have hdepsg : ∀ d ∈ t.deps, d ∈ f.graph.taskIds := by
          intro d hd
          obtain ⟨u, hu, hui⟩ := List.mem_map.mp (hdeps d hd)
          have hucomp : u.is_complete = true :=
            hcc t (by simp) ht d hd u (List.mem_append_left _ hu) hui
          have humem : u ∈ f.graph.tasks := by
            rw [hf]
            exact List.mem_filter.mpr ⟨hu, hucomp⟩
          exact List.mem_map.mpr ⟨u, humem, hui⟩
        have hcond1 : (t.deps.any fun d => !f.graph.taskIds.contains d) = false := by
          simp only [List.any_eq_false, Bool.not_eq_true, Bool.not_eq_true']
          intro d hd
          simpa using hdepsg d hd
        have hcond2 : (t.deps.contains t.id || f.graph.taskIds.contains t.id) = false := by
          simp only [Bool.or_eq_false_iff]
          exact ⟨by simpa using hniddeps, by simpa using hidg⟩
        have hok : f.graph.add_task t = Except.ok ⟨f.graph.tasks ++ [t]⟩ := by
          have h1' : ¬((t.deps.any fun d => !f.graph.taskIds.contains d) = true) := by
            rw [hcond1]
            exact Bool.false_ne_true
          have h2' : ¬((t.deps.contains t.id || f.graph.taskIds.contains t.id) = true) := by
            rw [hcond2]
            exact Bool.false_ne_true
          unfold Graph.add_task
          rw [if_neg h1', if_neg h2']
        have hflow : f.add_task t =
            Except.ok { f with graph := ⟨f.graph.tasks ++ [t]⟩ } := by
          unfold Flow.add_task
          rw [hok]
        have hseed : seedTasks f (t :: rest) =
            seedTasks { f with graph := ⟨f.graph.tasks ++ [t]⟩ } rest := by
          simp only [seedTasks, ht, if_true, hflow]
        obtain ⟨f', hs, hf''⟩ := ih (p ++ [t])
          { f with graph := ⟨f.graph.tasks ++ [t]⟩ }
          (by rw [hassoc]; exact hcc)
          (by simpa using hrest)
          (by simp [hf, List.filter_append, ht])
        rw [hassoc] at hf''
        exact ⟨f', by rw [hseed]; exact hs, hf''⟩
      · have htf : t.is_complete = false := by simpa using ht
        have hseed : seedTasks f (t :: rest) = seedTasks f rest := by
          simp only [seedTasks, htf, Bool.false_eq_true, if_false]
        obtain ⟨f', hs, hf''⟩ := ih (p ++ [t]) f
          (by rw [hassoc]; exact hcc)
          (by simpa using hrest)
          (by simp [hf, List.filter_append, htf])
        rw [hassoc] at hf''
        exact ⟨f', by rw [hseed]; exact hs, hf''⟩

/-! ## Claim theorems -/

/-- C1: a Flow constructed while a parent flow is ambiently active, with the
copy-parent flag set, has its event log seeded with every event visible to
the parent, and exactly the parent's terminal-complete tasks are registered
into its graph (no incomplete parent task is registered).  Hypotheses: the
parent graph satisfies the `add_task` invariant, complete tasks only depend
on complete tasks, and the child's `uuid4` thread is fresh (its log starts
empty). -/
theorem flow_init_copies_parent (parent : Flow) (stack : List Flow)
    (h : History) (tid : Nat)
    (hactive : get_flow stack = some parent)
    (hwf : parent.graph.wf = true)
    (hcc : completeClosed parent.graph.tasks)
    (hfresh : h.threadEvents tid = []) :
    ∃ (f : Flow) (h' : History),
      Flow.init true tid stack h = Except.ok (f, h') ∧
      f.graph.tasks = parent.graph.tasks.filter (fun t => t.is_complete) ∧
      h'.threadEvents tid = h.threadEvents parent.thread_id := by
  have htasks : parent.tasks = parent.graph.tasks :=
    topological_sort_eq parent.graph hwf
  obtain ⟨f', hs, hf'⟩ := seedTasks_ok parent.graph.tasks []
    ({ thread_id := tid } : Flow) (by simpa using hcc) (by simpa using hwf) rfl
  refine ⟨f', h.add_events tid (h.threadEvents parent.thread_id), ?_, ?_, ?_⟩
  · unfold Flow.init
    simp only [hactive]
    rw [htasks, hs]
    rfl
  · rw [hf']
    simp
  · rw [History.add_events_threadEvents, hfresh]
    simp

/-- C2: entering a Flow session makes it the ambient active flow, and the
exit matching an enter pops exactly that scope, restoring the previously
active flow, for any balanced body of nested or repeated entries in between
(the pop runs on both normal and exceptional exits of the `with` block). -/
theorem session_scope_stack (f : Flow) (s : List Flow) (body : List SessionOp)
    (hb : balancedFrom 0 body = true) :
    get_flow (runSession [SessionOp.enter f] s) = some f ∧
    runSession (SessionOp.enter f :: (body ++ [SessionOp.exitScope])) s = s ∧
    get_flow (runSession (SessionOp.enter f :: (body ++ [SessionOp.exitScope])) s) =
      get_flow s := by
  have hbal : balancedFrom 1 (body ++ [SessionOp.exitScope]) = true :=
    balancedFrom_append_exit body 0 hb
  have hrun : runSession (SessionOp.enter f :: (body ++ [SessionOp.exitScope])) s = s := by
    rw [runSession_cons]
    exact runSession_balanced (body ++ [SessionOp.exitScope]) 1 [f] s hbal rfl
  exact ⟨rfl, hrun, by rw [hrun]⟩

/-- C2 witness: a nested re-entry of the same flow inside another session,
run from a non-empty ambient stack, restores that stack exactly. -/
theorem session_scope_stack_witness :
    get_flow (runSession [SessionOp.enter exChild] [exFlowB]) = some exChild ∧
    runSession (SessionOp.enter exChild ::
      ([SessionOp.enter exChild, SessionOp.exitScope] ++ [SessionOp.exitScope]))
      [exFlowB] = [exFlowB] ∧
    get_flow (runSession (SessionOp.enter exChild ::
      ([SessionOp.enter exChild, SessionOp.exitScope] ++ [SessionOp.exitScope]))
      [exFlowB]) = get_flow [exFlowB] :=
  session_scope_stack exChild [exFlowB]
    [SessionOp.enter exChild, SessionOp.exitScope] rfl

/-- C3: events appended to a child flow after construction never show up in
the parent flow's event queries: the two flows' logs are partitioned by
thread identity (each construction draws a fresh `uuid4` identifier, stated
here as the inequality hypothesis). -/
theorem child_events_do_not_propagate (parent child : Flow) (h : History)
    (es : List Event) (agents : Option (List Agent)) (tasks : Option (List Task))
    (before_id after_id limit : Option Nat) (types : Option (List String))
    (hne : child.thread_id ≠ parent.thread_id) :
    parent.get_events (child.add_events h es) agents tasks before_id after_id
        limit types =
      parent.get_events h agents tasks before_id after_id limit types := by
  unfold Flow.get_events Flow.add_events
  apply History.get_events_congr
  exact History.add_events_threadEvents_other h child.thread_id parent.thread_id
    es (Ne.symm hne)

/-- C3 witness: the concrete child's appended event leaves the concrete
parent's unfiltered query unchanged. -/
theorem child_events_do_not_propagate_witness :
    exParent.get_events (exChild.add_events exHistory [exEvent]) none none none
        none none none =
      exParent.get_events exHistory none none none none none none :=
  child_events_do_not_propagate exParent exChild exHistory [exEvent] none none
    none none none none (by decide)

/-- C4: on a well-formed graph, a successful `Flow.add_task` is reflected by
the next read of the `tasks` view: the new task appears in it, every
previously registered task still appears in it, and every task in the view
comes after all of its dependencies. -/
theorem tasks_view_topological (f : Flow) (t : Task) (f' : Flow)
    (hwf : f.graph.wf = true) (hadd : f.add_task t = Except.ok f') :
    t ∈ f'.tasks ∧ (∀ u ∈ f.graph.tasks, u ∈ f'.tasks) ∧ topoOrdered f'.tasks := by
  unfold Flow.add_task at hadd
  cases hg : f.graph.add_task t with
  | error e =>
      rw [hg] at hadd
      cases hadd
  | ok g =>
      rw [hg] at hadd
      cases hadd
      have hwf' : g.wf = true := wf_add_task f.graph t g hwf hg
      obtain ⟨htasks, -, -, -⟩ := add_task_ok f.graph t g hg
      have hview : ({ f with graph := g } : Flow).tasks = g.tasks :=
        topological_sort_eq g hwf'
      refine ⟨?_, ?_, ?_⟩
      · rw [hview, htasks]
        simp
      · intro u hu
        rw [hview, htasks]
        exact List.mem_append_left _ hu
      · rw [hview]
        exact wf_topoOrdered g hwf'

/-- C4 witness: adding a task with a satisfied dependency to a concrete
well-formed flow places it in the `tasks` view after its dependency. -/
theorem tasks_view_topological_witness :
    exTaskB ∈ (Flow.mk 3 none none none ⟨[exTaskA, exTaskB]⟩).tasks ∧
    (∀ u ∈ (Graph.mk [exTaskA]).tasks,
      u ∈ (Flow.mk 3 none none none ⟨[exTaskA, exTaskB]⟩).tasks) ∧
    topoOrdered (Flow.mk 3 none none none ⟨[exTaskA, exTaskB]⟩).tasks :=
  tasks_view_topological (Flow.mk 3 none none none ⟨[exTaskA]⟩) exTaskB
    (Flow.mk 3 none none none ⟨[exTaskA, exTaskB]⟩) (by decide) rfl

/-- C1 witness: constructing a child of the concrete parent flow on fresh
thread 7 copies the parent's two events and registers exactly its two
complete tasks. -/
theorem flow_init_copies_parent_witness :
    ∃ (f : Flow) (h' : History),
      Flow.init true 7 [exParent] exHistory = Except.ok (f, h') ∧
      f.graph.tasks = exParent.graph.tasks.filter (fun t => t.is_complete) ∧
      h'.threadEvents 7 = exHistory.threadEvents exParent.thread_id :=
  flow_init_copies_parent exParent [exParent] exHistory 7 rfl (by decide)
    (by decide) rfl

/-- C5: the upstream and downstream task sets that `FlowTemplate.render`
supplies to the template are each disjoint from the context task set (the
rendered closures exclude the input set itself). -/
theorem flow_template_closures_disjoint (ft : FlowTemplate) :
    ft.render_args.1 ∩ ft.context.tasks = [] ∧
    ft.render_args.2 ∩ ft.context.tasks = [] := by
  have key : ∀ (L S : List Task), (L.filter (fun t => !(S.contains t))) ∩ S = [] := by
    intro L S
    rw [List.inter_eq_nil_iff_disjoint]
    intro a ha
    have := (List.mem_filter.mp ha).2
    simpa using this
  unfold FlowTemplate.render_args
  exact ⟨key _ _, key _ _⟩

/-- C6: `Flow.get_events` issues the underlying log query with this flow's
own thread identity, the identifiers of the passed agent and task objects
(empty lists when none are passed), and `before_id`, `after_id`, `limit` and
`types` forwarded unchanged. -/
theorem get_events_forwards_query (f : Flow) (h : History)
    (agents : Option (List Agent)) (tasks : Option (List Task))
    (before_id after_id limit : Option Nat) (types : Option (List String)) :
    f.get_events h agents tasks before_id after_id limit types =
      h.get_events ⟨f.thread_id, (agents.getD []).map (fun a => a.id),
        (tasks.getD []).map (fun t => t.id), before_id, after_id, limit, types⟩ ∧
    f.events_query none none before_id after_id limit types =
      ⟨f.thread_id, [], [], before_id, after_id, limit, types⟩ :=
  ⟨rfl, rfl⟩

/-- C7: `Flow.add_events` forwards the submitted events to the log's append
operation scoped to this flow's thread identity, and the thread's log gains
exactly the submitted sequence in submission order. -/
theorem add_events_appends_in_order (f : Flow) (h : History) (events : List Event) :
    f.add_events h events = h.add_events f.thread_id events ∧
    (f.add_events h events).threadEvents f.thread_id =
      h.threadEvents f.thread_id ++ events :=
  ⟨rfl, History.add_events_threadEvents h f.thread_id events⟩

/-- C8: `Template.render` returns the empty string whenever `should_render`
is false, and `InstructionsTemplate.should_render` is true exactly when its
instructions list is non-empty, so an empty instructions list renders to the
empty string. -/
theorem render_contract :
    (∀ rendered : String, templateRender false rendered = "") ∧
    (∀ t : InstructionsTemplate, t.should_render = true ↔ t.instructions ≠ []) ∧
    (∀ (t : InstructionsTemplate) (rendered : String),
      t.instructions = [] → t.render rendered = "") := by
  refine ⟨fun rendered => rfl, fun t => ?_, fun t rendered hins => ?_⟩
  · simp [InstructionsTemplate.should_render]
  · simp [InstructionsTemplate.render, InstructionsTemplate.should_render, hins,
      templateRender]

/-- C8 witness: a concrete instructions template with an empty list does not
render, while the base render with a false flag is empty on a concrete
body. -/
theorem render_contract_witness :
    templateRender false "body" = "" ∧
    InstructionsTemplate.render ⟨none, some instructionsTemplatePath, []⟩ "body" = "" :=
  ⟨render_contract.1 "body",
    render_contract.2.2 ⟨none, some instructionsTemplatePath, []⟩ "body" rfl⟩

/-- C9: `get_flow_events` returns the empty list (for every state of every
event log) when no flow is ambiently active, and queries the active flow's
events with a limit of exactly 50 when no limit is given. -/
theorem get_flow_events_behavior (s : List Flow) (h : History) (f : Flow)
    (limit : Option Nat) :
    (get_flow s = none → get_flow_events s h limit = []) ∧
    (get_flow s = some f → get_flow_events s h none =
      h.get_events ⟨f.thread_id, [], [], none, none, some 50, none⟩) := by
  constructor
  · intro hs
    unfold get_flow_events
    rw [hs]
  · intro hs
    unfold get_flow_events
    rw [hs]
    rfl

/-- C9 witness: with no active flow the concrete log yields `[]`; with the
concrete parent active and no limit, the query carries limit 50. -/
theorem get_flow_events_behavior_witness :
    get_flow_events [] exHistory none = [] ∧
    get_flow_events [exParent] exHistory none =
      exHistory.get_events ⟨exParent.thread_id, [], [], none, none, some 50, none⟩ :=
  ⟨(get_flow_events_behavior [] exHistory exParent none).1 rfl,
    (get_flow_events_behavior [exParent] exHistory exParent none).2 rfl⟩

/-- C10 counterexample: `template` provided as the empty string (so not
`None`) with `template_path` equal to `None` still raises the `ValueError`,
because the validator tests Python truthiness, not `None`-ness; so
"construction with at least one of them provided passes this validation"
fails as stated. -/
theorem template_validation_counterexample :
    some "" ≠ (none : Option String) ∧
    validateTemplate (some "") none =
      Except.error "Template or template_path must be provided." ∧
    validateTemplate (some "") none ≠ Except.ok (some "", none) :=
  ⟨by decide, rfl, fun hc => by
    simp [validateTemplate, pyFalsy] at hc
    exact absurd hc (by decide)⟩

/-- C10 (amended): constructing a Template with both `template` and
`template_path` equal to `None` raises a `ValueError`; construction with at
least one of them provided as a non-empty string passes the validation (a
provided empty string counts as missing); and every concrete subclass
supplies a non-empty default `template_path`, so it constructs successfully
by default. -/
theorem template_validation_amended :
    validateTemplate none none =
      Except.error "Template or template_path must be provided." ∧
    (∀ template template_path : Option String,
      pyFalsy template = false ∨ pyFalsy template_path = false →
      validateTemplate template template_path =
        Except.ok (template, template_path)) ∧
    validateTemplate none (some agentTemplatePath) =
      Except.ok (none, some agentTemplatePath) ∧
    validateTemplate none (some taskTemplatePath) =
      Except.ok (none, some taskTemplatePath) ∧
    validateTemplate none (some flowTemplatePath) =
      Except.ok (none, some flowTemplatePath) ∧
    validateTemplate none (some teamTemplatePath) =
      Except.ok (none, some teamTemplatePath) ∧
    validateTemplate none (some instructionsTemplatePath) =
      Except.ok (none, some instructionsTemplatePath) := by
  refine ⟨rfl, ?_, rfl, rfl, rfl, rfl, rfl⟩
  intro template template_path hprov
  unfold validateTemplate
  rcases hprov with hp | hp <;> simp [hp]

/-- C10 witness: a non-empty `template` alone passes the validation. -/
theorem template_validation_amended_witness :
    validateTemplate (some "x") none = Except.ok (some "x", none) :=
  template_validation_amended.2.1 (some "x") none (Or.inl (by decide))

end ControlFlow
